import Mathlib

/-!
Verification of the Tektronix TDS 224 oscilloscope driver
(`instruments/tektronix/tektds224.py`).

The driver is a thin translation layer between SCPI command strings and
object-style accessors.  We embed each routine as a pure Lean function:
the device is represented by the replies it gives to the queries the
routine issues, numbers parsed from decimal replies are modelled as exact
rationals (`ℚ`), command transmission is modelled by returning the exact
command strings sent, and Python exceptions are modelled with
`Option`/`Except`.
-/

namespace TekTDS224

/-! ## Decimal text helpers

The driver formats numbers with Python's `"{}".format` / `"{:.1E}".format`
and parses replies with `float(...)` / `int(...)`.  These helpers model
that decimal text layer.  Parsing is modelled on plain numeric literals
(optional sign, digits, optional fraction and exponent); Python's extra
leniency (surrounding whitespace, underscores, `inf`/`nan`) is not used by
any device reply format and is not modelled. -/

/-- Numeric value of a decimal digit character. -/
def digitVal (c : Char) : ℕ := c.toNat - 48

/-- Value of a string of decimal digit characters, most significant first. -/
def natVal (cs : List Char) : ℕ := cs.foldl (fun a c => 10 * a + digitVal c) 0

/-- All characters are decimal digits. -/
def allDigits (cs : List Char) : Bool := cs.all Char.isDigit

/-- Canonical decimal digits of a natural number (fuel-based so that it
evaluates by kernel reduction; `natToChars` supplies enough fuel). -/
def natToCharsAux : ℕ → ℕ → List Char
  | 0, _ => []
  | f + 1, n => if n = 0 then [] else natToCharsAux f (n / 10) ++ [Char.ofNat (48 + n % 10)]

/-- Canonical decimal numeral of a natural number, as written by
`"{}".format` on a nonnegative integer. -/
def natToChars (n : ℕ) : List Char := if n = 0 then ['0'] else natToCharsAux (n + 1) n

/-- Canonical decimal numeral of an integer, as written by `"{}".format`. -/
def intToChars (v : ℤ) : List Char :=
  if v < 0 then '-' :: natToChars v.natAbs else natToChars v.natAbs

/-- String form of `natToChars`. -/
def fmtNat (n : ℕ) : String := ⟨natToChars n⟩

/-- String form of `intToChars`. -/
def fmtInt (v : ℤ) : String := ⟨intToChars v⟩

/-- Python `int(s)` on a signed decimal numeral: optional sign followed by
at least one digit; anything else raises, modelled as `none`. -/
def parseInt (cs : List Char) : Option ℤ :=
  match cs with
  | [] => none
  | c :: r =>
    if c = '-' then (if r ≠ [] ∧ allDigits r then some (-(natVal r : ℤ)) else none)
    else if c = '+' then (if r ≠ [] ∧ allDigits r then some (natVal r : ℤ) else none)
    else if allDigits (c :: r) then some (natVal (c :: r) : ℤ) else none

/-- Optional exponent tail of a float literal: empty, or `e`/`E` followed by
a signed integer; the base value is scaled by the corresponding power of
ten. -/
def applyExp (base : ℚ) (cs : List Char) : Option ℚ :=
  match cs with
  | [] => some base
  | c :: r => if c = 'e' ∨ c = 'E' then (parseInt r).map (fun k => base * 10 ^ k) else none

/-- Unsigned part of Python `float(s)`: digits, optional `.` + digits,
optional exponent.  At least one digit must be present around the point. -/
def parseUnsigned (cs : List Char) : Option ℚ :=
  let ip := cs.takeWhile Char.isDigit
  let rest := cs.dropWhile Char.isDigit
  match rest with
  | '.' :: r =>
    let fp := r.takeWhile Char.isDigit
    let r2 := r.dropWhile Char.isDigit
    if ip = [] ∧ fp = [] then none
    else applyExp ((natVal ip : ℚ) + (natVal fp : ℚ) / 10 ^ fp.length) r2
  | _ => if ip = [] then none else applyExp (natVal ip : ℚ) rest

/-- Python `float(s)` on a decimal literal, as an exact rational. -/
def parseFloat (cs : List Char) : Option ℚ :=
  match cs with
  | [] => none
  | c :: r =>
    if c = '-' then (parseUnsigned r).map (fun q => -q)
    else if c = '+' then parseUnsigned r
    else parseUnsigned (c :: r)

/-- Python `str.split(sep)` for a one-character separator: splitting the
empty string gives `[""]`, and a separator at either end produces an empty
field. -/
def splitOnChar (sep : Char) : List Char → List (List Char)
  | [] => [[]]
  | c :: rest =>
    if c = sep then [] :: splitOnChar sep rest
    else
      match splitOnChar sep rest with
      | t :: ts => (c :: t) :: ts
      | [] => [[c]]

/-- Joining fields with a one-character separator (the device-side inverse
of `splitOnChar`, used to build simulated replies). -/
def joinWith (sep : Char) : List (List Char) → List Char
  | [] => []
  | [t] => t
  | t :: ts => t ++ sep :: joinWith sep ts

/-- Sequential `Option`-valued map, modelling a Python comprehension that
raises (and so produces nothing) as soon as one element fails. -/
def mapOption (f : α → Option β) : List α → Option (List β)
  | [] => some []
  | a :: l =>
    match f a with
    | none => none
    | some b => (mapOption f l).map (fun bs => b :: bs)

/-! ## Round-trip lemmas for the decimal text layer -/

theorem digitVal_ofNat {m : ℕ} (h : m < 10) :
    digitVal (Char.ofNat (48 + m)) = m ∧ (Char.ofNat (48 + m)).isDigit = true := by
  interval_cases m <;> exact ⟨by decide, by decide⟩

theorem natToCharsAux_digits : ∀ (f n : ℕ), ∀ c ∈ natToCharsAux f n, c.isDigit = true := by
  intro f
  induction f with
  | zero => intro n c hc; simp [natToCharsAux] at hc
  | succ f ih =>
    intro n c hc
    by_cases hn : n = 0
    · simp [natToCharsAux, hn] at hc
    · simp only [natToCharsAux, if_neg hn, List.mem_append, List.mem_singleton] at hc
      rcases hc with hc | hc
      · exact ih _ c hc
      · subst hc; exact (digitVal_ofNat (Nat.mod_lt _ (by norm_num))).2

theorem natVal_append_digit (l : List Char) (c : Char) :
    natVal (l ++ [c]) = 10 * natVal l + digitVal c := by
  simp [natVal, List.foldl_append]

theorem natVal_natToCharsAux : ∀ (f n : ℕ), n ≤ f → natVal (natToCharsAux f n) = n := by
  intro f
  induction f with
  | zero => intro n h; interval_cases n; rfl
  | succ f ih =>
    intro n h
    by_cases hn : n = 0
    · subst hn; rfl
    · have hdiv : n / 10 ≤ f := by omega
      simp only [natToCharsAux, if_neg hn, natVal_append_digit, ih _ hdiv,
        (digitVal_ofNat (Nat.mod_lt _ (by norm_num))).1]
      omega

theorem natVal_natToChars (n : ℕ) : natVal (natToChars n) = n := by
  by_cases hn : n = 0
  · subst hn; rfl
  · simp only [natToChars, if_neg hn]
    exact natVal_natToCharsAux (n + 1) n (by omega)

theorem natToChars_ne_nil (n : ℕ) : natToChars n ≠ [] := by
  by_cases hn : n = 0
  · subst hn; decide
  · simp only [natToChars, if_neg hn, natToCharsAux, ne_eq, List.append_eq_nil]
    simp

theorem natToChars_digits (n : ℕ) : ∀ c ∈ natToChars n, c.isDigit = true := by
  by_cases hn : n = 0
  · subst hn; decide
  · simp only [natToChars, if_neg hn]
    exact natToCharsAux_digits (n + 1) n

theorem allDigits_natToChars (n : ℕ) : allDigits (natToChars n) = true := by
  simp only [allDigits, List.all_eq_true]
  exact natToChars_digits n

theorem parseUnsigned_digits (cs : List Char) (hne : cs ≠ [])
    (hd : ∀ c ∈ cs, c.isDigit = true) : parseUnsigned cs = some (natVal cs : ℚ) := by
  have ht : cs.takeWhile Char.isDigit = cs := List.takeWhile_eq_self_iff.mpr hd
  have hdw : cs.dropWhile Char.isDigit = [] := List.dropWhile_eq_nil_iff.mpr hd
  simp only [parseUnsigned, ht, hdw, if_neg hne]
  rfl

theorem parseFloat_natToChars (n : ℕ) : parseFloat (natToChars n) = some (n : ℚ) := by
  obtain ⟨c, r, hcr⟩ : ∃ c r, natToChars n = c :: r := by
    cases h : natToChars n with
    | nil => exact absurd h (natToChars_ne_nil n)
    | cons c r => exact ⟨c, r, rfl⟩
  have hcd : c.isDigit = true := natToChars_digits n c (by rw [hcr]; exact List.mem_cons_self c r)
  have hcm : c ≠ '-' := by intro h; rw [h] at hcd; simp at hcd
  have hcp : c ≠ '+' := by intro h; rw [h] at hcd; simp at hcd
  rw [hcr]
  simp only [parseFloat, if_neg hcm, if_neg hcp]
  rw [← hcr, parseUnsigned_digits _ (natToChars_ne_nil n) (natToChars_digits n),
    natVal_natToChars]

theorem parseFloat_intToChars (v : ℤ) : parseFloat (intToChars v) = some (v : ℚ) := by
  have hu := parseUnsigned_digits (natToChars v.natAbs) (natToChars_ne_nil _) (natToChars_digits _)
  by_cases hv : v < 0
  · have h2 : ((v.natAbs : ℚ)) = -(v : ℚ) := by
      have h1 : ((v.natAbs : ℤ)) = -v := Int.ofNat_natAbs_of_nonpos (le_of_lt hv)
      rw [← Int.cast_natCast, h1]; push_cast; ring
    simp only [intToChars, if_pos hv]
    simp [parseFloat, hu, natVal_natToChars, h2]
  · have h2 : ((v.natAbs : ℚ)) = (v : ℚ) := by
      have h1 : ((v.natAbs : ℤ)) = v := Int.natAbs_of_nonneg (by omega)
      rw [← Int.cast_natCast, h1]
    simp only [intToChars, if_neg hv, parseFloat_natToChars, h2]

theorem parseInt_intToChars (v : ℤ) : parseInt (intToChars v) = some v := by
  by_cases hv : v < 0
  · simp only [intToChars, if_pos hv, parseInt]
    rw [if_pos trivial, if_pos ⟨natToChars_ne_nil _, allDigits_natToChars _⟩, natVal_natToChars]
    congr 1
    omega
  · simp only [intToChars, if_neg hv]
    obtain ⟨c, r, hcr⟩ : ∃ c r, natToChars v.natAbs = c :: r := by
      cases h : natToChars v.natAbs with
      | nil => exact absurd h (natToChars_ne_nil _)
      | cons c r => exact ⟨c, r, rfl⟩
    have hcd : c.isDigit = true :=
      natToChars_digits v.natAbs c (by rw [hcr]; exact List.mem_cons_self c r)
    have hcm : c ≠ '-' := by intro h; rw [h] at hcd; simp at hcd
    have hcp : c ≠ '+' := by intro h; rw [h] at hcd; simp at hcd
    rw [hcr]
    simp only [parseInt, if_neg hcm, if_neg hcp]
    rw [← hcr, if_pos (allDigits_natToChars _), natVal_natToChars]
    congr 1
    omega

theorem splitOnChar_ne_nil (sep : Char) (cs : List Char) : splitOnChar sep cs ≠ [] := by
  induction cs with
  | nil => simp [splitOnChar]
  | cons c rest ih =>
    by_cases hc : c = sep
    · simp [splitOnChar, hc]
    · simp only [splitOnChar, if_neg hc]
      cases h : splitOnChar sep rest with
      | nil => exact absurd h ih
      | cons t ts => simp

theorem splitOnChar_nosep (sep : Char) (t : List Char) (h : sep ∉ t) :
    splitOnChar sep t = [t] := by
  induction t with
  | nil => rfl
  | cons c t' ih =>
    have hc : c ≠ sep := fun he => h (he ▸ List.mem_cons_self c t')
    have ht' : sep ∉ t' := fun hm => h (List.mem_cons_of_mem c hm)
    simp only [splitOnChar, if_neg hc, ih ht']

theorem splitOnChar_append_sep (sep : Char) (t r : List Char) (h : sep ∉ t) :
    splitOnChar sep (t ++ sep :: r) = t :: splitOnChar sep r := by
  induction t with
  | nil => simp [splitOnChar]
  | cons c t' ih =>
    have hc : c ≠ sep := fun he => h (he ▸ List.mem_cons_self c t')
    have ht' : sep ∉ t' := fun hm => h (List.mem_cons_of_mem c hm)
    simp only [List.cons_append, splitOnChar, if_neg hc]
    rw [show t'.append (sep :: r) = t' ++ sep :: r from rfl, ih ht']

theorem splitOnChar_joinWith (sep : Char) :
    ∀ toks : List (List Char), toks ≠ [] → (∀ t ∈ toks, sep ∉ t) →
      splitOnChar sep (joinWith sep toks) = toks := by
  intro toks
  induction toks with
  | nil => intro h; exact absurd rfl h
  | cons t ts ih =>
    intro _ hsep
    cases ts with
    | nil => exact splitOnChar_nosep sep t (hsep t (List.mem_cons_self t []))
    | cons t2 ts' =>
      have hjw : joinWith sep (t :: t2 :: ts') = t ++ sep :: joinWith sep (t2 :: ts') := rfl
      rw [hjw, splitOnChar_append_sep sep t _ (hsep t (List.mem_cons_self t _)),
        ih (by simp) (fun u hu => hsep u (List.mem_cons_of_mem t hu))]

theorem mapOption_eq_some (f : α → Option β) (g : α → β) :
    ∀ l : List α, (∀ a ∈ l, f a = some (g a)) → mapOption f l = some (l.map g) := by
  intro l
  induction l with
  | nil => intro _; rfl
  | cons a l' ih =>
    intro h
    simp only [mapOption, h a (List.mem_cons_self a l'),
      ih (fun b hb => h b (List.mem_cons_of_mem a hb)), Option.map_some', List.map_cons]

theorem mapOption_map (f : β → Option γ) (h : α → β) (l : List α) :
    mapOption f (l.map h) = mapOption (fun a => f (h a)) l := by
  induction l with
  | nil => rfl
  | cons a l' ih => simp only [List.map_cons, mapOption, ih]

/-! ## Waveform acquisition (`_TekTDS224DataSource.read_waveform`)

The routine issues `CURVE?` plus six numeric queries.  We model the device
by the decoded reply of `CURVE?` (a string for the ASCII path, a byte
stream for the binary path) and by the six numeric replies, the latter
already parsed into exact rationals (the `float(...)` calls on them are
injective on decimal text, so nothing is lost by working post-parse). -/

/-! ### Binary block transfer

The binary branch of `read_waveform` (lines 80-90) sets `DAT:ENC RIB`
(signed big-endian), queries the device data width, sends `CURVE?` and then
calls `self._tek.binblockread(data_width)`. -/

/-- Big-endian unsigned value of a byte string. -/
def beFold (bs : List ℕ) : ℕ := bs.foldl (fun a b => 256 * a + b) 0

/-- Two's-complement reading of one sample of `w` bytes: values at or above
half of `256 ^ w` (that is, `2 ^ (8 * w - 1)`) wrap to negatives. -/
def decodeChunkSigned (w : ℕ) (chunk : List ℕ) : ℤ :=
  let u := beFold chunk
  if 2 * u < 256 ^ w then (u : ℤ) else (u : ℤ) - 256 ^ w

/-- Decimal number held in a byte string (used for the block-length field
of the `#<n><length>` header); non-digit bytes fail. -/
def parseNatBytes (bs : List ℕ) : Option ℕ :=
  if bs ≠ [] ∧ bs.all (fun b => decide (48 ≤ b) && decide (b ≤ 57)) then
    some (bs.foldl (fun a b => 10 * a + (b - 48)) 0)
  else none

/-- Byte string cut into consecutive `w`-byte samples (fuel-based;
`toChunks` supplies enough fuel). -/
def toChunksAux : ℕ → ℕ → List ℕ → List (List ℕ)
  | 0, _, _ => []
  | f + 1, w, l =>
    match l with
    | [] => []
    | _ => l.take w :: toChunksAux f w (l.drop w)

/-- Byte string cut into consecutive `w`-byte samples. -/
def toChunks (w : ℕ) (l : List ℕ) : List (List ℕ) := toChunksAux l.length w l

/-- Modelled from the spec: `binblockread` (defined in the abstract
instrument layer, which is not part of this repository's source file) reads
a length-prefixed binary block — an ASCII `#`, one digit giving the number
of length digits, that many digits giving the byte count, then the payload
— and unpacks it into signed big-endian integers of the queried width.  A
malformed header or a stream too short for the announced count would block
or fail the transport read, modelled as `none`. -/
def binblockread (w : ℕ) (stream : List ℕ) : Option (List ℤ) :=
  match stream with
  | 35 :: d :: rest =>
    if 48 ≤ d ∧ d ≤ 57 then
      (parseNatBytes (rest.take (d - 48))).bind (fun L =>
        if (rest.take (d - 48)).length = d - 48 ∧ ((rest.drop (d - 48)).take L).length = L then
          some (((toChunks w (((rest.drop (d - 48)).take L).take (w * (L / w)))).map
            (decodeChunkSigned w)))
        else none)
    else none
  | _ => none

/-! ### Simulated device replies carrying a given sample sequence -/

/-- Big-endian byte string of an unsigned value, `w` bytes wide. -/
def beBytes : ℕ → ℕ → List ℕ
  | 0, _ => []
  | w + 1, u => beBytes w (u / 256) ++ [u % 256]

/-- Signed big-endian (`RIB`) encoding of one sample of width `w`. -/
def encodeSigned (w : ℕ) (v : ℤ) : List ℕ :=
  beBytes w (if v < 0 then (v + 256 ^ w).toNat else v.toNat)

/-- Device reply to `CURVE?` in `RIB` mode: length-prefixed block holding
the samples `vs` at width `w`. -/
def binBlockOfSamples (w : ℕ) (vs : List ℤ) : List ℕ :=
  let payload := vs.flatMap (encodeSigned w)
  let lenDigits := natToChars payload.length
  35 :: (48 + lenDigits.length) :: (lenDigits.map Char.toNat ++ payload)

/-- Device reply to `CURVE?` in `ASCI` mode: comma-separated decimal
numerals of the samples `vs`. -/
def asciiReplyOfSamples (vs : List ℤ) : String := ⟨joinWith ',' (vs.map intToChars)⟩

/-- Numeric replies of the six `WFMP:...` queries made by `read_waveform`:
vertical offset (`YOF?`), multiplier (`YMU?`), zero (`YZE?`), horizontal
zero (`XZE?`), increment (`XIN?`), and point count (`NR_P?`, a count). -/
structure WfmPreamble where
  yoff : ℚ
  ymult : ℚ
  yzero : ℚ
  xzero : ℚ
  xincr : ℚ
  ptcnt : ℕ

/-- Lines 92-110 of `read_waveform`, after the raw samples have been
obtained: `y = ((raw - yoff) * ymult) + yzero` elementwise, and
`x = arange(ptcnt) * xincr + xzero`.  Returns the `(x, y)` pair. -/
def read_waveform_core (raw : List ℚ) (p : WfmPreamble) : List ℚ × List ℚ :=
  ((List.range p.ptcnt).map (fun i : ℕ => (i : ℚ) * p.xincr + p.xzero),
   raw.map (fun r => (r - p.yoff) * p.ymult + p.yzero))

/-- The ASCII decoding that lines 73-79 describe, in the spec's words
(`DAT:ENC ASCI`, split the `CURVE?` reply on commas, convert every field
with `float`): the intended meaning of the branch, kept for comparison
with the binary path.  The program never realises it — see
`read_waveform_ascii`. -/
def asciiDecodeSpec (reply : String) : Option (List ℚ) :=
  mapOption parseFloat (splitOnChar ',' reply.data)

/-- `read_waveform(bin_format=False)` as the program actually runs it.
Line 78 builds a lazy `builtins.map` iterator and line 79 hands it to
`np.array`, which does not consume iterators: `raw` becomes a
0-dimensional object array wrapping the iterator, so the rescale
`(raw - float(yoffs)) * ...` at line 99 raises `TypeError` on every call,
whatever the reply says (the floats are never even parsed).  The ASCII
branch therefore never returns a waveform. -/
def read_waveform_ascii (_reply : String) (_p : WfmPreamble) : Option (List ℚ × List ℚ) :=
  none

/-- `read_waveform(bin_format=True)` as a function of the queried data
width, the byte stream following `CURVE?`, and the six numeric replies.
The raw integer samples enter the rescale arithmetic as exact values. -/
def read_waveform_bin (w : ℕ) (stream : List ℕ) (p : WfmPreamble) :
    Option (List ℚ × List ℚ) :=
  (binblockread w stream).map
    (fun raw => read_waveform_core (raw.map (fun z : ℤ => (z : ℚ))) p)

/-! ### Round-trip lemmas for the binary block -/

theorem length_beBytes : ∀ (w u : ℕ), (beBytes w u).length = w := by
  intro w
  induction w with
  | zero => intro u; rfl
  | succ w ih => intro u; simp [beBytes, ih]

theorem length_encodeSigned (w : ℕ) (v : ℤ) : (encodeSigned w v).length = w := by
  unfold encodeSigned; exact length_beBytes w _

theorem beFold_aux : ∀ (w u a : ℕ),
    List.foldl (fun a b => 256 * a + b) a (beBytes w u) = a * 256 ^ w + u % 256 ^ w := by
  intro w
  induction w with
  | zero => intro u a; simp [beBytes, Nat.mod_one]
  | succ w ih =>
    intro u a
    rw [beBytes, List.foldl_append, ih]
    simp only [List.foldl_cons, List.foldl_nil]
    rw [pow_succ, show (256 : ℕ) ^ w * 256 = 256 * 256 ^ w from by ring, Nat.mod_mul]
    ring

theorem beFold_beBytes (w u : ℕ) : beFold (beBytes w u) = u % 256 ^ w := by
  have h := beFold_aux w u 0
  simpa [beFold] using h

theorem decode_encode_chunk (w : ℕ) (v : ℤ) (hw : 1 ≤ w)
    (h1 : -(2 ^ (8 * w - 1)) ≤ v) (h2 : v < 2 ^ (8 * w - 1)) :
    decodeChunkSigned w (encodeSigned w v) = v := by
  have hM : (256 : ℕ) ^ w = 2 * 2 ^ (8 * w - 1) := by
    rw [show (256 : ℕ) = 2 ^ 8 from by norm_num, ← pow_mul, ← pow_succ']
    congr 1
    omega
  have hMz : ((256 : ℤ)) ^ w = ((256 ^ w : ℕ) : ℤ) := by push_cast; rfl
  have hPz : (((2 : ℕ) ^ (8 * w - 1) : ℕ) : ℤ) = 2 ^ (8 * w - 1) := by push_cast; rfl
  by_cases hv : v < 0
  · simp only [encodeSigned, if_pos hv, decodeChunkSigned, beFold_beBytes]
    have hu : ((v + (256 : ℤ) ^ w).toNat : ℤ) = v + (256 : ℤ) ^ w := by
      rw [Int.toNat_of_nonneg]
      omega
    have humod : (v + (256 : ℤ) ^ w).toNat % 256 ^ w = (v + (256 : ℤ) ^ w).toNat :=
      Nat.mod_eq_of_lt (by omega)
    rw [humod, if_neg (by omega)]
    omega
  · simp only [encodeSigned, if_neg hv, decodeChunkSigned, beFold_beBytes]
    have hu : (v.toNat : ℤ) = v := Int.toNat_of_nonneg (by omega)
    have humod : v.toNat % 256 ^ w = v.toNat := Nat.mod_eq_of_lt (by omega)
    rw [humod, if_pos (by omega)]
    omega

theorem toChunksAux_flatMap (w : ℕ) (hw : 1 ≤ w) :
    ∀ (f : ℕ) (vs : List ℤ), vs.length ≤ f →
      toChunksAux f w (vs.flatMap (encodeSigned w)) = vs.map (encodeSigned w) := by
  intro f
  induction f with
  | zero =>
    intro vs h
    have hnil : vs = [] := List.eq_nil_of_length_eq_zero (by omega)
    subst hnil; rfl
  | succ f ih =>
    intro vs h
    cases vs with
    | nil => rfl
    | cons v vs' =>
      rw [List.flatMap_cons]
      have hlen : (encodeSigned w v).length = w := length_encodeSigned w v
      obtain ⟨b, bs, hbs⟩ : ∃ b bs, encodeSigned w v = b :: bs := by
        cases henc : encodeSigned w v with
        | nil => rw [henc] at hlen; simp at hlen; omega
        | cons b bs => exact ⟨b, bs, rfl⟩
      rw [hbs, List.cons_append]
      show (b :: (bs ++ vs'.flatMap (encodeSigned w))).take w ::
          toChunksAux f w ((b :: (bs ++ vs'.flatMap (encodeSigned w))).drop w) =
        (v :: vs').map (encodeSigned w)
      rw [show b :: (bs ++ vs'.flatMap (encodeSigned w)) =
        (b :: bs) ++ vs'.flatMap (encodeSigned w) from rfl]
      rw [← hbs, List.take_left' hlen, List.drop_left' hlen, List.map_cons,
        ih vs' (by simp only [List.length_cons] at h; omega)]

theorem isDigit_toNat_bounds (c : Char) (h : c.isDigit = true) :
    48 ≤ c.toNat ∧ c.toNat ≤ 57 := by
  simp [Char.isDigit] at h
  exact ⟨h.1, h.2⟩

theorem parseNatBytes_natToChars (L : ℕ) :
    parseNatBytes ((natToChars L).map Char.toNat) = some L := by
  have hne : (natToChars L).map Char.toNat ≠ [] := by
    simp [natToChars_ne_nil L]
  have hall : ((natToChars L).map Char.toNat).all
      (fun b => decide (48 ≤ b) && decide (b ≤ 57)) = true := by
    rw [List.all_eq_true]
    intro b hb
    obtain ⟨c, hc, rfl⟩ := List.mem_map.mp hb
    have hbd := isDigit_toNat_bounds c (natToChars_digits L c hc)
    simp [hbd.1, hbd.2]
  rw [parseNatBytes, if_pos ⟨hne, hall⟩, List.foldl_map]
  congr 1
  exact natVal_natToChars L

theorem length_flatMap_encode (w : ℕ) (vs : List ℤ) :
    (vs.flatMap (encodeSigned w)).length = w * vs.length := by
  induction vs with
  | nil => simp
  | cons v vs' ih =>
    rw [List.flatMap_cons, List.length_append, ih, length_encodeSigned, List.length_cons]
    ring

theorem natToCharsAux_length : ∀ (f n k : ℕ), n < 10 ^ k → (natToCharsAux f n).length ≤ k := by
  intro f
  induction f with
  | zero => intro n k _; simp [natToCharsAux]
  | succ f ih =>
    intro n k hn
    by_cases h0 : n = 0
    · simp [natToCharsAux, h0]
    · have hk : 1 ≤ k := by
        by_contra hcon
        interval_cases k
        omega
      have hdiv : n / 10 < 10 ^ (k - 1) := by
        rw [Nat.div_lt_iff_lt_mul (by norm_num)]
        calc n < 10 ^ k := hn
        _ = 10 ^ (k - 1) * 10 := by rw [← pow_succ]; congr 1; omega
      simp only [natToCharsAux, if_neg h0, List.length_append, List.length_cons,
        List.length_nil]
      have := ih (n / 10) (k - 1) hdiv
      omega

theorem natToChars_length_le (L k : ℕ) (hk : 1 ≤ k) (h : L < 10 ^ k) :
    (natToChars L).length ≤ k := by
  by_cases h0 : L = 0
  · simp [natToChars, h0]; omega
  · simp only [natToChars, if_neg h0]
    exact natToCharsAux_length (L + 1) L k h

theorem binblockread_ofSamples (w : ℕ) (vs : List ℤ) (hw : 1 ≤ w)
    (hsize : w * vs.length < 10 ^ 9) :
    binblockread w (binBlockOfSamples w vs) =
      some ((vs.map (encodeSigned w)).map (decodeChunkSigned w)) := by
  have hpl : (vs.flatMap (encodeSigned w)).length = w * vs.length :=
    length_flatMap_encode w vs
  have hcnt : (natToChars (vs.flatMap (encodeSigned w)).length).length ≤ 9 :=
    natToChars_length_le _ 9 (by norm_num) (by omega)
  have hsub : 48 + (natToChars (vs.flatMap (encodeSigned w)).length).length - 48 =
      (natToChars (vs.flatMap (encodeSigned w)).length).length := by omega
  have hmaplen : ((natToChars (vs.flatMap (encodeSigned w)).length).map Char.toNat).length =
      (natToChars (vs.flatMap (encodeSigned w)).length).length := List.length_map _ _
  simp only [binBlockOfSamples, binblockread]
  rw [if_pos (by omega : 48 ≤ 48 + (natToChars (vs.flatMap (encodeSigned w)).length).length ∧
    48 + (natToChars (vs.flatMap (encodeSigned w)).length).length ≤ 57)]
  rw [hsub, List.take_left' hmaplen, List.drop_left' hmaplen, parseNatBytes_natToChars,
    Option.some_bind]
  rw [if_pos ⟨hmaplen, by rw [List.take_length]⟩]
  rw [List.take_length, hpl, Nat.mul_div_cancel_left vs.length (by omega), ← hpl,
    List.take_length]
  unfold toChunks
  rw [hpl]
  congr 1
  have hfuel : vs.length ≤ w * vs.length := Nat.le_mul_of_pos_left vs.length (by omega)
  rw [← toChunksAux_flatMap w hw (w * vs.length) vs hfuel]

/-! ## Claims C1 and C2: rescale law and time axis -/

/-- Claim C1: for every raw sample sequence obtained from the `CURVE?`
reply and device replies `yoff` (`YOF?`), `ymult` (`YMU?`), `yzero`
(`YZE?`), the voltage sequence returned by `read_waveform` satisfies
`voltage[i] = (raw[i] - yoff) * ymult + yzero` at every index `i`,
exactly. -/
theorem rescale_law (raw : List ℚ) (p : WfmPreamble) (i : ℕ) :
    (read_waveform_core raw p).2[i]? =
      raw[i]?.map (fun r => (r - p.yoff) * p.ymult + p.yzero) := by
  simp [read_waveform_core]

/-- Claim C2: for every device-reported point count `ptcnt`, increment
`xincr` and horizontal zero `xzero`, the time sequence has length `ptcnt`
and `time[i] = i * xincr + xzero` for every `i < ptcnt`. -/
theorem time_axis (raw : List ℚ) (p : WfmPreamble) :
    (read_waveform_core raw p).1.length = p.ptcnt ∧
      ∀ i : ℕ, i < p.ptcnt →
        (read_waveform_core raw p).1[i]? = some ((i : ℚ) * p.xincr + p.xzero) := by
  constructor
  · simp only [read_waveform_core, List.length_map, List.length_range]
  · intro i hi
    simp only [read_waveform_core, List.getElem?_map, List.getElem?_range hi, Option.map_some']

/-- Witness for C2 at `ptcnt = 3`, `i = 1`. -/
theorem time_axis_witness :
    (1 < 3) ∧
      (read_waveform_core [] ⟨0, 1, 0, 4, 7, 3⟩).1[1]? = some ((1 : ℚ) * 7 + 4) :=
  ⟨by decide, (time_axis [] ⟨0, 1, 0, 4, 7, 3⟩).2 1 (by decide)⟩

/-! ## Claim C3: ASCII and binary transfer decode equivalently -/

theorem not_mem_intToChars (sep : Char) (hd : sep.isDigit = false) (hm : sep ≠ '-')
    (v : ℤ) : sep ∉ intToChars v := by
  intro hmem
  unfold intToChars at hmem
  have hdig : sep.isDigit = true := by
    by_cases hv : v < 0
    · rw [if_pos hv] at hmem
      rcases List.mem_cons.mp hmem with h | h
      · exact absurd h hm
      · exact natToChars_digits _ sep h
    · rw [if_neg hv] at hmem
      exact natToChars_digits _ sep hmem
  rw [hd] at hdig
  exact Bool.false_ne_true hdig

theorem asciiDecodeSpec_ofSamples (vs : List ℤ) (hvs : vs ≠ []) :
    asciiDecodeSpec (asciiReplyOfSamples vs) = some (vs.map (fun v : ℤ => (v : ℚ))) := by
  unfold asciiDecodeSpec asciiReplyOfSamples
  rw [show (String.mk (joinWith ',' (vs.map intToChars))).data =
    joinWith ',' (vs.map intToChars) from rfl]
  rw [splitOnChar_joinWith ',' (vs.map intToChars) (by simp [hvs]) ?_]
  · rw [mapOption_map]
    exact mapOption_eq_some _ _ vs (fun v _ => parseFloat_intToChars v)
  · intro t ht
    obtain ⟨v, _, rfl⟩ := List.mem_map.mp ht
    exact not_mem_intToChars ',' (by decide) (by decide) v

/-- Claim C3, actual behavior: replies carrying the same sample values do
decode to the same raw sequence under the spec's reading of the two paths
(first two conjuncts), but the program's ASCII call never gets there — it
raises `TypeError` at line 99 because line 79 wrapped the lazy `map`
iterator in a 0-dimensional `np.array` — while the binary call succeeds,
so `read_waveform` does not return the same result either way. -/
theorem ascii_path_diverges (vs : List ℤ) (w : ℕ) (p : WfmPreamble)
    (hw : w = 1 ∨ w = 2) (hvs : vs ≠ [])
    (hrange : ∀ v ∈ vs, -(2 ^ (8 * w - 1)) ≤ v ∧ v < 2 ^ (8 * w - 1))
    (hsize : w * vs.length < 10 ^ 9) :
    asciiDecodeSpec (asciiReplyOfSamples vs) = some (vs.map (fun v : ℤ => (v : ℚ))) ∧
    binblockread w (binBlockOfSamples w vs) = some vs ∧
    read_waveform_ascii (asciiReplyOfSamples vs) p = none ∧
    read_waveform_ascii (asciiReplyOfSamples vs) p ≠
      read_waveform_bin w (binBlockOfSamples w vs) p := by
  have hw1 : 1 ≤ w := by rcases hw with h | h <;> omega
  have hascii := asciiDecodeSpec_ofSamples vs hvs
  have hbin : binblockread w (binBlockOfSamples w vs) = some vs := by
    rw [binblockread_ofSamples w vs hw1 hsize, List.map_map]
    have hpt : ∀ v ∈ vs, (decodeChunkSigned w ∘ encodeSigned w) v = id v := fun v hv =>
      decode_encode_chunk w v hw1 (hrange v hv).1 (hrange v hv).2
    rw [List.map_congr_left hpt, List.map_id]
  refine ⟨hascii, hbin, rfl, ?_⟩
  rw [read_waveform_bin, hbin]
  simp [read_waveform_ascii]

/-- Witness for C3: three two-byte samples, on which the ASCII call fails
while the binary call succeeds. -/
theorem ascii_path_diverges_witness :
    read_waveform_ascii (asciiReplyOfSamples [10, -20, 30]) ⟨5, 2, 0, 0, 1, 3⟩ ≠
      read_waveform_bin 2 (binBlockOfSamples 2 [10, -20, 30]) ⟨5, 2, 0, 0, 1, 3⟩ :=
  (ascii_path_diverges [10, -20, 30] 2 ⟨5, 2, 0, 0, 1, 3⟩ (Or.inr rfl) (by decide)
    (by decide) (by decide)).2.2.2

/-! ## Claim C4: result lengths

The code does not itself tie the `CURVE?` sample count to the `NR_P?`
reply: the voltage length comes from the decoded block and the time length
from `NR_P?`, so on an inconsistent simulated device they differ. -/

/-- Counterexample to C4 as stated: a binary `CURVE?` block carrying two
width-1 samples together with a point-count reply of `3` makes
`read_waveform` succeed with a time sequence of length `3` and a voltage
sequence of length `2`. -/
theorem length_mismatch_counterexample :
    (read_waveform_bin 1 (binBlockOfSamples 1 [1, 2]) ⟨0, 1, 0, 0, 1, 3⟩).map
        (fun xy => (xy.1.length, xy.2.length)) = some (3, 2) ∧ (3 : ℕ) ≠ 2 := by
  constructor
  · have hb : binblockread 1 (binBlockOfSamples 1 [1, 2]) = some [1, 2] := by decide
    rw [read_waveform_bin, hb]
    simp [read_waveform_core]
  · decide

/-- Claim C4, amended: whenever `read_waveform` succeeds (the binary path;
the ASCII path always raises) with a decoded sample count equal to the
device-reported point count, as on a consistent device, the returned time
and voltage sequences have equal length, equal to that point count. -/
theorem equal_lengths_of_consistent (w : ℕ) (stream : List ℕ) (p : WfmPreamble)
    (raw : List ℤ) (hdec : binblockread w stream = some raw)
    (hlen : raw.length = p.ptcnt) :
    (read_waveform_bin w stream p).map (fun xy => (xy.1.length, xy.2.length)) =
      some (p.ptcnt, p.ptcnt) := by
  rw [read_waveform_bin, hdec]
  simp [read_waveform_core, hlen]

/-- Witness for the amended C4 at three width-1 samples. -/
theorem equal_lengths_of_consistent_witness :
    binblockread 1 (binBlockOfSamples 1 [1, 2, 3]) = some [1, 2, 3] ∧
    ([1, 2, 3] : List ℤ).length = (3 : ℕ) ∧
    (read_waveform_bin 1 (binBlockOfSamples 1 [1, 2, 3]) ⟨0, 1, 0, 0, 1, 3⟩).map
        (fun xy => (xy.1.length, xy.2.length)) = some (3, 3) :=
  ⟨by decide, by decide,
    equal_lengths_of_consistent 1 (binBlockOfSamples 1 [1, 2, 3]) ⟨0, 1, 0, 0, 1, 3⟩
      [1, 2, 3] (by decide) (by decide)⟩

/-! ## Claim C5: data width round-trip (`TekTDS224.data_width`) -/

/-- `data_width` setter (lines 307-312): any value other than `1` or `2`
raises `ValueError` before a command is sent; otherwise `DATA:WIDTH <n>` is
sent and the device now holds width `n`.  The `ok` result carries the
commands sent and the stored width. -/
def data_width_set (n : ℤ) : Except String (List String × ℤ) :=
  if ¬(n = 1 ∨ n = 2) then Except.error "Only one or two byte-width is supported."
  else Except.ok (["DATA:WIDTH " ++ fmtInt n], n)

/-- `data_width` getter (line 305): query `DATA:WIDTH?` and parse the reply
with `int`; a device holding width `dev` replies with its decimal numeral. -/
def data_width_get (dev : ℤ) : Option ℤ := parseInt (intToChars dev)

/-- Claim C5: setting the data width to `1` or `2` sends `DATA:WIDTH <n>`
and a subsequent get returns the same value; any other integer raises the
validation error, with no command sent and the device state unchanged (the
error branch carries no command and no new width). -/
theorem data_width_roundtrip (n : ℤ) :
    ((n = 1 ∨ n = 2) →
      data_width_set n = Except.ok (["DATA:WIDTH " ++ fmtInt n], n) ∧
        data_width_get n = some n) ∧
    (¬(n = 1 ∨ n = 2) →
      data_width_set n = Except.error "Only one or two byte-width is supported.") := by
  constructor
  · intro h
    exact ⟨by rw [data_width_set, if_neg (not_not_intro h)], parseInt_intToChars n⟩
  · intro h
    rw [data_width_set, if_pos h]

/-- Witness for C5 at the accepted width `2` and the rejected width `5`. -/
theorem data_width_roundtrip_witness :
    ((2 : ℤ) = 1 ∨ (2 : ℤ) = 2) ∧ ¬((5 : ℤ) = 1 ∨ (5 : ℤ) = 2) ∧
    (data_width_set 2 = Except.ok (["DATA:WIDTH " ++ fmtInt 2], 2) ∧
      data_width_get 2 = some 2) ∧
    data_width_set 5 = Except.error "Only one or two byte-width is supported." :=
  ⟨by decide, by decide, (data_width_roundtrip 2).1 (by decide),
    (data_width_roundtrip 5).2 (by decide)⟩

/-! ## Claim C6: coupling round-trip (`_TekTDS224Channel.coupling`) -/

/-- `TekTDS224.Coupling` enumeration (lines 220-226). -/
inductive Coupling where
  | ac
  | dc
  | ground
deriving DecidableEq

/-- SCPI value of each `Coupling` member. -/
def Coupling.value : Coupling → String
  | .ac => "AC"
  | .dc => "DC"
  | .ground => "GND"

/-- Python `TekTDS224.Coupling(s)`: enum lookup by value, raising (hence
`none`) when no member carries the value `s`. -/
def Coupling.ofValue (s : String) : Option Coupling :=
  if s = "AC" then some .ac
  else if s = "DC" then some .dc
  else if s = "GND" then some .ground
  else none

/-- Argument handed to the coupling setter: either a genuine `Coupling`
member, or any other Python value (recorded by its type name), which the
`isinstance` check rejects. -/
inductive CouplingArg where
  | member : Coupling → CouplingArg
  | other : String → CouplingArg

/-- Coupling setter (lines 158-163): a non-`Coupling` argument raises
`TypeError` before any command is sent; a member sends
`CH<n>:COUPL <value>`, which the device then stores. -/
def coupling_set (idx : ℕ) (newval : CouplingArg) : Except String (List String × String) :=
  match newval with
  | .other t =>
    Except.error ("Coupling setting must be a `TekTDS224.Coupling` value, got " ++ t ++
      " instead.")
  | .member c => Except.ok (["CH" ++ fmtNat idx ++ ":COUPL " ++ c.value], c.value)

/-- Coupling getter (lines 147-156): query `CH<n>:COUPL?` and build the
enum member from the reply; a device holding `stored` replies with it. -/
def coupling_get (stored : String) : Option Coupling := Coupling.ofValue stored

/-- Claim C6: setting a channel's coupling to one of the three members
sends `CH<n>:COUPL <value>` and a subsequent get returns the matching
member; setting any non-member value raises a validation error before any
command is sent. -/
theorem coupling_roundtrip (idx : ℕ) (c : Coupling) (t : String) :
    coupling_set idx (.member c) =
      Except.ok (["CH" ++ fmtNat idx ++ ":COUPL " ++ c.value], c.value) ∧
    coupling_get c.value = some c ∧
    coupling_set idx (.other t) =
      Except.error ("Coupling setting must be a `TekTDS224.Coupling` value, got " ++ t ++
        " instead.") := by
  refine ⟨rfl, ?_, rfl⟩
  cases c <;> rfl

/-! ## Claim C7: channel measurement protocol (`_TekTDS224Channel.measurement`) -/

/-- Physical units appearing in the measurement catalog.  `siemens` is
here because the source's `pq.S` is the siemens (conductance) unit of the
`quantities` package — seconds is the lowercase `pq.s`/`pq.second`, which
this file uses elsewhere (line 216) but not in `MeasurementUnits`. -/
inductive PhysUnit where
  | volt
  | second
  | hertz
  | siemens
deriving DecidableEq

/-- `TekTDS224.MeasurementTypes` (lines 200-205), in source order. -/
def MeasurementTypes : List (String × String) :=
  [("cyclic_rms", "CRM"), ("fall_time", "FAL"), ("frequency", "FREQ"),
   ("maximum", "MAXI"), ("mean", "MEAN"), ("minimum", "MINI"),
   ("negative_width", "NWI"), ("none", "NON"), ("peak_peak", "PK2"),
   ("period", "PERI"), ("positive_width", "PWI"), ("rise_time", "RIS")]

/-- `TekTDS224.MeasurementUnits` (lines 207-212), in source order.  The
source writes `pq.S` for the five time-type measurements, and `pq.S` is
siemens, not seconds (`pq.s`): the table is embedded as written. -/
def MeasurementUnits : List (String × PhysUnit) :=
  [("cyclic_rms", .volt), ("fall_time", .siemens), ("frequency", .hertz),
   ("maximum", .volt), ("mean", .volt), ("minimum", .volt),
   ("negative_width", .siemens), ("peak_peak", .volt), ("period", .siemens),
   ("positive_width", .siemens), ("rise_time", .siemens)]

/-- `_TekTDS224Channel.measurement` (lines 165-182): select the channel as
immediate-measurement source, select the measurement type, query the value,
and tag the `float`-parsed reply with the given unit.  Returns the exact
command/query strings issued, in order, with the result; nothing is kept
between calls. -/
def Channel.measurement (idx : ℕ) (mcode : String) (u : PhysUnit) (reply : String) :
    List String × Option (ℚ × PhysUnit) :=
  (["MEASU:IMM:SOU " ++ fmtNat idx, "MEASU:IMM:TYP " ++ mcode, "MEASU:IMM:VAL?"],
   (parseFloat reply.data).map (fun q => (q, u)))

/-- `_set_measurements` (lines 129-140): for every catalog entry that also
has a unit, attach an accessor calling `measurement` with that entry's code
and unit (the `none` type has no unit and is skipped). -/
def Channel.accessors (idx : ℕ) :
    List (String × (String → List String × Option (ℚ × PhysUnit))) :=
  MeasurementTypes.filterMap (fun kv =>
    (MeasurementUnits.lookup kv.1).map
      (fun u => (kv.1, fun reply => Channel.measurement idx kv.2 u reply)))

/-- Claim C7, actual behavior: every channel measurement accessor issues,
in order, `MEASU:IMM:SOU <n>`, `MEASU:IMM:TYP <code>` with the code of the
fixed 11-entry catalog, then `MEASU:IMM:VAL?`, and returns the reply
parsed as a float tagged with the `MeasurementUnits` entry; calls share no
state (each is a pure function of its inputs alone).  But the unit tag the
claim asserts is wrong for the five time-type measurements: the source's
`pq.S` is siemens, not the seconds (`pq.s`) that the claim, the spec's
catalog and the method's own docstring describe. -/
theorem measurement_protocol_actual (idx : ℕ) (reply : String) :
    (Channel.accessors idx).length = 11 ∧
    (Channel.accessors idx).map (fun kf => (kf.1, kf.2 reply)) =
      [("cyclic_rms", (["MEASU:IMM:SOU " ++ fmtNat idx, "MEASU:IMM:TYP CRM",
          "MEASU:IMM:VAL?"], (parseFloat reply.data).map (fun q => (q, PhysUnit.volt)))),
       ("fall_time", (["MEASU:IMM:SOU " ++ fmtNat idx, "MEASU:IMM:TYP FAL",
          "MEASU:IMM:VAL?"], (parseFloat reply.data).map (fun q => (q, PhysUnit.siemens)))),
       ("frequency", (["MEASU:IMM:SOU " ++ fmtNat idx, "MEASU:IMM:TYP FREQ",
          "MEASU:IMM:VAL?"], (parseFloat reply.data).map (fun q => (q, PhysUnit.hertz)))),
       ("maximum", (["MEASU:IMM:SOU " ++ fmtNat idx, "MEASU:IMM:TYP MAXI",
          "MEASU:IMM:VAL?"], (parseFloat reply.data).map (fun q => (q, PhysUnit.volt)))),
       ("mean", (["MEASU:IMM:SOU " ++ fmtNat idx, "MEASU:IMM:TYP MEAN",
          "MEASU:IMM:VAL?"], (parseFloat reply.data).map (fun q => (q, PhysUnit.volt)))),
       ("minimum", (["MEASU:IMM:SOU " ++ fmtNat idx, "MEASU:IMM:TYP MINI",
          "MEASU:IMM:VAL?"], (parseFloat reply.data).map (fun q => (q, PhysUnit.volt)))),
       ("negative_width", (["MEASU:IMM:SOU " ++ fmtNat idx, "MEASU:IMM:TYP NWI",
          "MEASU:IMM:VAL?"], (parseFloat reply.data).map (fun q => (q, PhysUnit.siemens)))),
       ("peak_peak", (["MEASU:IMM:SOU " ++ fmtNat idx, "MEASU:IMM:TYP PK2",
          "MEASU:IMM:VAL?"], (parseFloat reply.data).map (fun q => (q, PhysUnit.volt)))),
       ("period", (["MEASU:IMM:SOU " ++ fmtNat idx, "MEASU:IMM:TYP PERI",
          "MEASU:IMM:VAL?"], (parseFloat reply.data).map (fun q => (q, PhysUnit.siemens)))),
       ("positive_width", (["MEASU:IMM:SOU " ++ fmtNat idx, "MEASU:IMM:TYP PWI",
          "MEASU:IMM:VAL?"], (parseFloat reply.data).map (fun q => (q, PhysUnit.siemens)))),
       ("rise_time", (["MEASU:IMM:SOU " ++ fmtNat idx, "MEASU:IMM:TYP RIS",
          "MEASU:IMM:VAL?"], (parseFloat reply.data).map (fun q => (q, PhysUnit.siemens))))] ∧
    PhysUnit.siemens ≠ PhysUnit.second :=
  ⟨rfl, rfl, by decide⟩

/-! ## Claim C8: bulk measurement listing (`TekTDS224.measurement`) -/

/-- Python `s.replace("CH", "")`: remove every occurrence of `CH`,
scanning left to right without overlap. -/
def replaceCH : List Char → List Char
  | [] => []
  | [c] => [c]
  | c :: c2 :: rest =>
    if c = 'C' ∧ c2 = 'H' then replaceCH rest
    else c :: replaceCH (c2 :: rest)

/-- Reverse catalog lookup
`[key for key, value in self.MeasurementTypes.items() if value == code][0]`:
the first catalog name carrying the given code, `none` (an `IndexError`)
when the code is unknown. -/
def codeToName (code : List Char) : Option String :=
  ((MeasurementTypes.filter (fun kv => kv.2.data == code)).head?).map (fun kv => kv.1)

/-- `TekTDS224.measurement` property (lines 318-334): split the `MEASU?`
reply on `;` and read each 3-field group as (type code, unused field,
channel designator); the channel number is the designator with `CH`
removed, parsed as a float, and the measurement name comes from reverse
catalog lookup on the code.  A failing parse or unknown code raises,
modelled as `none`. -/
def measurement (response : String) : Option (List (ℚ × String)) :=
  let parts := splitOnChar ';' response.data
  mapOption
    (fun i => (parseFloat (replaceCH (parts.getD (i * 3 + 2) []))).bind
      (fun ch => (codeToName (parts.getD (i * 3) [])).map (fun name => (ch, name))))
    (List.range (parts.length / 3))

/-- Device reply to `MEASU?` made of `;`-joined triples
`<code>;<unused>;CH<n>`. -/
def measurementReply (groups : List (String × String × ℕ)) : String :=
  ⟨joinWith ';'
    (groups.flatMap (fun g => [g.1.data, g.2.1.data, 'C' :: 'H' :: natToChars g.2.2]))⟩

theorem replaceCH_of_digits (cs : List Char) (h : ∀ c ∈ cs, c.isDigit = true) :
    replaceCH cs = cs := by
  induction cs with
  | nil => rfl
  | cons c rest ih =>
    cases rest with
    | nil => rfl
    | cons c2 rest2 =>
      have hc : c.isDigit = true := h c (List.mem_cons_self c _)
      have hcC : ¬(c = 'C' ∧ c2 = 'H') := by
        rintro ⟨rfl, -⟩
        simp at hc
      rw [replaceCH, if_neg hcC, ih (fun x hx => h x (List.mem_cons_of_mem c hx))]

theorem length_flatMap_three {α β : Type} (F G H : α → List β) (gs : List α) :
    (gs.flatMap (fun g => [F g, G g, H g])).length = 3 * gs.length := by
  induction gs with
  | nil => rfl
  | cons g gs' ih =>
    rw [List.flatMap_cons, List.length_append, ih, List.length_cons]
    simp
    ring

theorem flatTriple_getD (gs : List (String × String × ℕ)) :
    ∀ (i : ℕ) (hi : i < gs.length),
      (gs.flatMap (fun g => [g.1.data, g.2.1.data, 'C' :: 'H' :: natToChars g.2.2])).getD
          (i * 3) [] = gs[i].1.data ∧
      (gs.flatMap (fun g => [g.1.data, g.2.1.data, 'C' :: 'H' :: natToChars g.2.2])).getD
          (i * 3 + 2) [] = 'C' :: 'H' :: natToChars gs[i].2.2 := by
  induction gs with
  | nil => intro i hi; simp at hi
  | cons g gs' ih =>
    intro i hi
    have hfm : (g :: gs').flatMap
        (fun g => [g.1.data, g.2.1.data, 'C' :: 'H' :: natToChars g.2.2]) =
        g.1.data :: g.2.1.data :: ('C' :: 'H' :: natToChars g.2.2) ::
          gs'.flatMap (fun g => [g.1.data, g.2.1.data, 'C' :: 'H' :: natToChars g.2.2]) :=
      rfl
    rw [hfm]
    cases i with
    | zero => exact ⟨rfl, rfl⟩
    | succ i =>
      have hi' : i < gs'.length := by simpa using Nat.lt_of_succ_lt_succ (by simpa using hi)
      constructor
      · rw [show (i + 1) * 3 = (i * 3 + 1 + 1) + 1 from by ring, List.getD_cons_succ,
          show i * 3 + 1 + 1 = (i * 3 + 1) + 1 from rfl, List.getD_cons_succ,
          List.getD_cons_succ]
        simpa using (ih i hi').1
      · rw [show (i + 1) * 3 + 2 = (i * 3 + 2 + 1 + 1) + 1 from by ring, List.getD_cons_succ,
          show i * 3 + 2 + 1 + 1 = (i * 3 + 2 + 1) + 1 from rfl, List.getD_cons_succ,
          show i * 3 + 2 + 1 = (i * 3 + 2) + 1 from rfl, List.getD_cons_succ]
        simpa using (ih i hi').2

theorem map_range_getElem {α β : Type} (gs : List α) (F : α → β) (d : α) :
    (List.range gs.length).map (fun i => F (gs.getD i d)) = gs.map F := by
  induction gs with
  | nil => rfl
  | cons g gs' ih =>
    rw [List.length_cons, List.range_succ_eq_map, List.map_cons, List.map_map, List.map_cons]
    have hh : F ((g :: gs').getD 0 d) = F g := by simp
    rw [hh, ← ih]
    congr 1

/-- Claim C8: the bulk measurement listing splits the `MEASU?` reply on
semicolons into repeated 3-field groups (type code, unused field, channel
designator), decoding the code back to its catalog name and the designator
digits after `CH` into a channel number — provided each group's code is in
the catalog and the free-text fields contain no separator. -/
theorem measurement_parse (groups : List (String × String × ℕ)) (hne : groups ≠ [])
    (hok : ∀ g ∈ groups,
      ';' ∉ g.1.data ∧ ';' ∉ g.2.1.data ∧ (codeToName g.1.data).isSome = true) :
    measurement (measurementReply groups) =
      some (groups.map (fun g => ((g.2.2 : ℚ), (codeToName g.1.data).getD ""))) := by
  have htne : groups.flatMap
      (fun g => [g.1.data, g.2.1.data, 'C' :: 'H' :: natToChars g.2.2]) ≠ [] := by
    cases groups with
    | nil => exact absurd rfl hne
    | cons g gs => simp [List.flatMap_cons]
  have hnosep : ∀ t ∈ groups.flatMap
      (fun g => [g.1.data, g.2.1.data, 'C' :: 'H' :: natToChars g.2.2]), ';' ∉ t := by
    intro t ht
    obtain ⟨g, hg, hmem⟩ := List.mem_flatMap.mp ht
    have hg3 := hok g hg
    simp only [List.mem_cons, List.mem_singleton, List.not_mem_nil, or_false] at hmem
    rcases hmem with rfl | rfl | rfl
    · exact hg3.1
    · exact hg3.2.1
    · intro hctr
      rcases List.mem_cons.mp hctr with h | hctr2
      · exact absurd h (by decide)
      rcases List.mem_cons.mp hctr2 with h | hctr3
      · exact absurd h (by decide)
      · have := natToChars_digits g.2.2 ';' hctr3
        simp at this
  have hsplit : splitOnChar ';' (measurementReply groups).data =
      groups.flatMap (fun g => [g.1.data, g.2.1.data, 'C' :: 'H' :: natToChars g.2.2]) := by
    rw [show (measurementReply groups).data = joinWith ';'
      (groups.flatMap (fun g => [g.1.data, g.2.1.data, 'C' :: 'H' :: natToChars g.2.2]))
      from rfl]
    exact splitOnChar_joinWith ';' _ htne hnosep
  have hlen : (groups.flatMap
      (fun g => [g.1.data, g.2.1.data, 'C' :: 'H' :: natToChars g.2.2])).length =
      3 * groups.length := length_flatMap_three _ _ _ groups
  simp only [measurement, hsplit, hlen, Nat.mul_div_cancel_left _ (by norm_num : 0 < 3)]
  refine Eq.trans (mapOption_eq_some _
    (fun i => ((((groups.getD i default).2.2 : ℕ) : ℚ),
      (codeToName (groups.getD i default).1.data).getD "")) _ ?_) ?_
  case refine_2 =>
    exact congrArg some (map_range_getElem groups
      (fun g => (((g.2.2 : ℕ) : ℚ), (codeToName g.1.data).getD "")) default)
  case refine_1 =>
    intro i hi
    have hilt : i < groups.length := List.mem_range.mp hi
    have hgd := flatTriple_getD groups i hilt
    have hgetD : groups.getD i default = groups[i] := List.getD_eq_getElem groups default hilt
    rw [hgd.1, hgd.2]
    simp only [hgetD]
    have hdig : ∀ c ∈ natToChars groups[i].2.2, c.isDigit = true :=
      natToChars_digits groups[i].2.2
    rw [show replaceCH ('C' :: 'H' :: natToChars groups[i].2.2) =
      replaceCH (natToChars groups[i].2.2) from by rw [replaceCH]; simp,
      replaceCH_of_digits _ hdig, parseFloat_natToChars, Option.some_bind]
    obtain ⟨name, hname⟩ := Option.isSome_iff_exists.mp (hok groups[i]
      (List.getElem_mem hilt)).2.2
    rw [hname]
    rfl

/-- Witness for C8: the reply `FREQ;Hz;CH1;MEAN;V;CH2` parses to channels
1 and 2 with types `frequency` and `mean`. -/
theorem measurement_parse_witness :
    measurement "FREQ;Hz;CH1;MEAN;V;CH2" =
      some [((1 : ℚ), "frequency"), ((2 : ℚ), "mean")] := by
  have h := measurement_parse [("FREQ", "Hz", 1), ("MEAN", "V", 2)] (by decide)
    (by decide)
  rw [show measurementReply [("FREQ", "Hz", 1), ("MEAN", "V", 2)] =
    "FREQ;Hz;CH1;MEAN;V;CH2" from by decide] at h
  rw [h]
  decide

/-! ## Claim C9: time-base scale formatting (`TekTDS224.time_scale` setter)

`"{:.1E}".format(float(val))` writes the value in scientific notation with
one digit after the point, rounding ties to even, with a signed two-digit
exponent.  We realise that decimal formatting on the exact rational
(Python formats the nearest binary double; on decimally short inputs such
as the scenario value the two agree), entirely through the reduced
numerator and denominator so that it evaluates by kernel reduction. -/

/-- Decimal digit count of a natural number. -/
def dlen (n : ℕ) : ℕ := (natToChars n).length

/-- Whether `N / d < 10 ^ e`, for positive naturals and a signed power. -/
def ltPow10 (N d : ℕ) (e : ℤ) : Bool :=
  if 0 ≤ e then decide (N < d * 10 ^ e.toNat) else decide (N * 10 ^ (-e).toNat < d)

/-- `⌊log₁₀ (N / d)⌋` for positive `N`, `d`, located from the digit counts
and one comparison. -/
def floorLog10 (N d : ℕ) : ℤ :=
  if ltPow10 N d ((dlen N : ℤ) - (dlen d : ℤ)) then (dlen N : ℤ) - (dlen d : ℤ) - 1
  else (dlen N : ℤ) - (dlen d : ℤ)

/-- Nearest integer to `A / B`, ties to even. -/
def rhe (A B : ℕ) : ℕ :=
  if B < 2 * (A % B) then A / B + 1
  else if 2 * (A % B) < B then A / B
  else if A / B % 2 = 0 then A / B else A / B + 1

/-- Exponent field of `"{:.1E}"`: `E`, a sign, at least two digits. -/
def expChars (e : ℤ) : List Char :=
  (if e < 0 then ['E', '-'] else ['E', '+']) ++
    (if e.natAbs < 10 then '0' :: natToChars e.natAbs else natToChars e.natAbs)

/-- `"{:.1E}".format` on an exact rational: the two leading decimal digits
`D` of `|v|` (rounded, ties to even) give the mantissa `D/10 . D%10`; a
rounding overflow to `100` carries into the exponent. -/
def fmtSci1 (v : ℚ) : String :=
  if v = 0 then "0.0E+00"
  else
    let N := v.num.natAbs
    let d := v.den
    let e := floorLog10 N d
    let A := if 0 ≤ 1 - e then N * 10 ^ (1 - e).toNat else N
    let B := if 0 ≤ 1 - e then d else d * 10 ^ (e - 1).toNat
    let D := rhe A B
    let sgn : List Char := if v.num < 0 then ['-'] else []
    if D = 100 then ⟨sgn ++ '1' :: '.' :: '0' :: expChars (e + 1)⟩
    else ⟨sgn ++ natToChars (D / 10) ++ '.' :: natToChars (D % 10) ++ expChars e⟩

/-- A physical quantity fed to the `time_scale` setter: a magnitude in some
unit together with that unit's value in seconds (`assume_units(..., pq.s)`
gives a bare number the unit seconds, i.e. factor 1). -/
structure TimeQuantity where
  magnitude : ℚ
  unitInSeconds : ℚ

/-- `time_scale` setter (lines 346-350): normalize the quantity to seconds,
format it with `"{:.1E}"`, and send `HORizontal:MAIn:SCAle <value>`. -/
def time_scale_set (q : TimeQuantity) : String :=
  "HORizontal:MAIn:SCAle " ++ fmtSci1 (q.magnitude * q.unitInSeconds)

/-- Claim C9: the `time_scale` setter normalizes its input to seconds and
formats it in scientific notation with one digit after the decimal point;
for `2.5e-3` seconds it sends exactly `HORizontal:MAIn:SCAle 2.5E-03`. -/
theorem time_scale_scenario :
    time_scale_set ⟨(2.5e-3 : ℚ), 1⟩ = "HORizontal:MAIn:SCAle 2.5E-03" := by
  have hq : (2.5e-3 : ℚ) * 1 = Rat.mk' 1 400 (by norm_num) (by norm_num) := by
    rw [mul_one, Rat.mk'_eq_divInt, Rat.divInt_eq_div]
    norm_num
  rw [time_scale_set, hq]
  decide

/-! ## Claim C10: data source selection (`TekTDS224.data_source` getter) -/

/-- Object returned by the `data_source` getter: a channel with its 1-based
index and name, or a plain data source known only by name. -/
inductive SourceObj where
  | channel (idx : ℤ) (name : String)
  | source (name : String)
deriving DecidableEq

/-- `data_source` getter (lines 274-283): query `DAT:SOU?`; a reply
starting with `CH` builds `_TekTDS224Channel(self, int(name[2:]) - 1)`,
which stores index `(int(name[2:]) - 1) + 1` and renders its name from it;
any other reply names a plain `_TekTDS224DataSource` verbatim.  An
unparseable channel suffix raises `ValueError`, modelled as `none`. -/
def data_source_get (reply : String) : Option SourceObj :=
  if reply.data.take 2 = ['C', 'H'] then
    (parseInt (reply.data.drop 2)).map
      (fun k => SourceObj.channel ((k - 1) + 1) ⟨'C' :: 'H' :: intToChars ((k - 1) + 1)⟩)
  else some (SourceObj.source reply)

/-- Claim C10: when the `DAT:SOU?` reply starts with `CH` and its suffix
parses as an integer `k`, the getter returns a channel with 1-based index
`k`; any reply not starting with `CH` yields a plain data source whose name
is the reply verbatim. -/
theorem data_source_get_spec (reply : String) :
    (∀ k : ℤ, reply.data.take 2 = ['C', 'H'] → parseInt (reply.data.drop 2) = some k →
      data_source_get reply = some (.channel k ⟨'C' :: 'H' :: intToChars k⟩)) ∧
    (reply.data.take 2 ≠ ['C', 'H'] → data_source_get reply = some (.source reply)) := by
  constructor
  · intro k h1 h2
    rw [data_source_get, if_pos h1, h2, Option.map_some']
    rw [show k - 1 + 1 = k from by ring]
  · intro h
    rw [data_source_get, if_neg h]

/-- Witness for C10 at the replies `CH3` and `MATH`. -/
theorem data_source_get_witness :
    (("CH3" : String).data.take 2 = ['C', 'H']) ∧
    parseInt (("CH3" : String).data.drop 2) = some 3 ∧
    data_source_get "CH3" = some (.channel 3 ⟨'C' :: 'H' :: intToChars 3⟩) ∧
    (("MATH" : String).data.take 2 ≠ ['C', 'H']) ∧
    data_source_get "MATH" = some (.source "MATH") :=
  ⟨by decide, by decide, (data_source_get_spec "CH3").1 3 (by decide) (by decide),
    by decide, (data_source_get_spec "MATH").2 (by decide)⟩

end TekTDS224
